import Mathlib

/-!
# Verification of the deckhouse/lib-dhctl YAML validation core

Shallow embedding of the schema-indexed document-validation engine of
`pkg/yaml/validation` (files `index.go`, `validator.go`, the extensions
validator, the schema transformer package), together with theorems about
the behaviour of its operations.

External collaborators (the `sigs.k8s.io/yaml` decoder, the
`go-openapi/validate` structural validator with `post.ApplyDefaults`,
`encoding/json` marshalling, caller-supplied pre-validators and extension
rule handlers) are modelled as explicit function parameters ("oracles"):
the embedded code is a faithful translation of the repository's control
flow and data flow around those calls.
-/

namespace DhctlValidation

/-! ## Schema data model

Embeds the fields of `go-openapi/spec.Schema` that the repository's code
reads or writes:

* `AdditionalProperties : *spec.SchemaOrBool` — modelled as
  `Option (Bool × Option Schema)` (`nil` pointer ↦ `none`; the pair is
  `(Allows, Schema)`);
* `Properties : map[string]spec.Schema` — modelled as
  `Option (List (String × Schema))` (`nil` map ↦ `none`; the code
  distinguishes a nil map via `schema.Properties == nil`);
* `Items : *spec.SchemaOrArray` — modelled as
  `Option (Option Schema × List Schema)` (the pair is `(Schema, Schemas)`);
* `Extensions : spec.Extensions` — only entries whose value is a string
  slice are modelled, because the sole reader `Extensions.GetStringSlice`
  treats a missing key and a key with a non-string-slice value
  identically (it returns `ok = false` for both).
-/

inductive Schema where
  | mk (additionalProperties : Option (Bool × Option Schema))
       (properties : Option (List (String × Schema)))
       (items : Option (Option Schema × List Schema))
       (extensions : List (String × List String)) : Schema

namespace Schema

def additionalProperties : Schema → Option (Bool × Option Schema)
  | .mk ap _ _ _ => ap

def properties : Schema → Option (List (String × Schema))
  | .mk _ props _ _ => props

def items : Schema → Option (Option Schema × List Schema)
  | .mk _ _ its _ => its

def extensions : Schema → List (String × List String)
  | .mk _ _ _ exts => exts

/-- The zero value `spec.Schema{}`: every pointer/map field is nil. -/
def empty : Schema := .mk none none none []

end Schema

/-- `spec.Extensions.GetStringSlice`: look up a string-slice extension by
name; a missing key yields `none` (Go: `ok = false`). -/
def getStringSlice (exts : List (String × List String)) (name : String) : Option (List String) :=
  (exts.find? (fun e => e.1 = name)).map (·.2)

/-! ## transformer.AdditionalPropertiesTransformer

From the `transformer` package. The transformer is
`AdditionalPropertiesTransformer{disallowFull: bool}`; we carry the
`disallowFull` flag as an explicit argument.
-/

/-- `shouldDisallowAdditionalProperties`: true when the
`AdditionalProperties` pointer is nil, otherwise the `disallowFull` flag. -/
def shouldDisallowAP (disallowFull : Bool) (ap : Option (Bool × Option Schema)) : Bool :=
  match ap with
  | none => true
  | some _ => disallowFull

/-- `disallowAdditionalProperties`: set `AdditionalProperties` to
`&spec.SchemaOrBool{Allows: false}` (the `Schema` field stays nil). -/
def disallowAP (s : Schema) : Schema :=
  .mk (some (false, none)) s.properties s.items s.extensions

mutual

/-- `AdditionalPropertiesTransformer.Transform` (value level).

The Go function works in place through its pointer argument; this is the
value computed for the pointed-to schema.  Top level: disallow when
`shouldDisallowAdditionalProperties` holds.  For each property: only when
`shouldDisallowAdditionalProperties` holds for the property is it
disallowed and recursed into (`transformClosed`); otherwise it is left
untouched.  `Items.Schema` and every element of `Items.Schemas` are
recursed into unconditionally. -/
def transform (dis : Bool) : Schema → Schema
  | .mk ap props its exts =>
    Schema.mk
      (if shouldDisallowAP dis ap then some (false, none) else ap)
      (match props with
       | none => none
       | some l => some (transformProps dis l))
      (match its with
       | none => none
       | some (isc, iscs) =>
         some ((match isc with
                | none => none
                | some s => some (transform dis s)),
               transformList dis iscs))
      exts

/-- The loop body `ts := prop; disallowAdditionalProperties(&ts);
s.Properties[k] = *t.Transform(&ts)`, inlined: `Transform` applied to a
schema whose `AdditionalProperties` was just set to the closed value (so
the top-level check inside that `Transform` call re-produces the same
closed value whichever branch it takes). -/
def transformClosed (dis : Bool) : Schema → Schema
  | .mk _ props its exts =>
    Schema.mk
      (some (false, none))
      (match props with
       | none => none
       | some l => some (transformProps dis l))
      (match its with
       | none => none
       | some (isc, iscs) =>
         some ((match isc with
                | none => none
                | some s => some (transform dis s)),
               transformList dis iscs))
      exts

/-- The `for k, prop := range s.Properties` loop of `Transform`. -/
def transformProps (dis : Bool) : List (String × Schema) → List (String × Schema)
  | [] => []
  | (k, p) :: rest =>
    (if shouldDisallowAP dis p.additionalProperties then (k, transformClosed dis p)
     else (k, p)) :: transformProps dis rest

/-- The `for i, item := range s.Items.Schemas` loop of `Transform`. -/
def transformList (dis : Bool) : List Schema → List Schema
  | [] => []
  | s :: rest => transform dis s :: transformList dis rest

end

/-! ## SchemaIndex (`index.go`) -/

/-- `const InvalidGroupPrefix = "invalid:"`. -/
def InvalidGroupPrefix : String := "invalid:"

/-- `SchemaIndex{Kind, Version}` with json tags `kind` / `apiVersion`. -/
structure SchemaIndex where
  Kind : String
  Version : String
deriving DecidableEq, Repr

namespace SchemaIndex

/-- `SchemaIndex.IsValid`: both fields non-empty. -/
def IsValid (i : SchemaIndex) : Bool :=
  i.Kind != "" && i.Version != ""

/-- `SchemaIndex.GroupAndGroupVersion`: split `Version` on `/`.
`strings.Count(v, "/")`: 0 → `("", v)`; 1 → split at the first `/`
(`strings.Index` + slicing, rendered as takeWhile/dropWhile over the
characters); otherwise both results are
`fmt.Sprintf("%s %s", InvalidGroupPrefix, version)`. -/
def GroupAndGroupVersion (i : SchemaIndex) : String × String :=
  let v := i.Version
  if v = "" then ("", "")
  else
    let n := v.data.count '/'
    if n = 0 then ("", v)
    else if n = 1 then
      (String.mk (v.data.takeWhile (· != '/')),
       String.mk ((v.data.dropWhile (· != '/')).drop 1))
    else
      let invalid := InvalidGroupPrefix ++ " " ++ i.Version
      (invalid, invalid)

/-- `SchemaIndex.Group`. -/
def Group (i : SchemaIndex) : String :=
  (i.GroupAndGroupVersion).1

/-- `SchemaIndex.GroupVersion`. -/
def GroupVersion (i : SchemaIndex) : String :=
  (i.GroupAndGroupVersion).2

end SchemaIndex

/-! ## Error model

Go wraps sentinel errors (`ErrRead`, `ErrKindValidationFailed`,
`ErrKindInvalidYAML`, `ErrSchemaNotFound`) into `fmt.Errorf` chains; we
model each distinct wrap site of the embedded code as a constructor.
Opaque external / caller-supplied errors are carried as `String`
messages. -/

/-- Errors produced by `ExtensionsValidator`: opaque handler / decode
errors (`leaf`) and the `fmt.Errorf("%s: %w", field, err)` wrap applied
in `ExtensionsValidator.Validate` (`field`). -/
inductive XErr where
  | leaf (msg : String)
  | field (name : String) (err : XErr)
deriving DecidableEq, Repr

/-- Errors of the validation package. `multipleKeys` and `invalidIndex`
and `indexUnmarshalFailed` wrap `ErrKindValidationFailed`;
`schemaNotFound` is the distinguished `ErrSchemaNotFound` sentinel;
`preValidator` errors are surfaced verbatim; `validationFailed` is the
wrap applied by `ValidateWithIndex` around a failed `openAPIValidate`
(with `compact = true` for the `omitDocInError`/`noPrettyError`
formatting that omits the document text). -/
inductive VErr where
  | read (msg : String)
  | multipleKeys (keyName : String) (keys : List String)
  | indexUnmarshalFailed (msg : String)
  | invalidIndex (version kind doc : String)
  | indexUnmarshalValidate (msg : String)
  | preValidator (msg : String)
  | schemaNotFound
  | openAPIUnmarshal (strict : Bool) (msg : String)
  | structuralErrors (msgs : List String)
  | extensionFailed (err : XErr)
  | validationFailed (compact : Bool) (index : SchemaIndex) (doc : String) (inner : Option VErr)

/-! ## Duplicate schema-key scan and ParseIndex (`index.go`) -/

/-- Split a character sequence into its lines: the maximal `\n`-free
runs, with `\n` as separator (the list always has one more element than
the content has newlines, like the anchors of a `(?m)^...$` regex). -/
def splitLinesAux : List Char → List Char → List (List Char)
  | [], acc => [acc.reverse]
  | c :: rest, acc =>
    if c = '\n' then acc.reverse :: splitLinesAux rest []
    else splitLinesAux rest (c :: acc)

def splitLines (content : List Char) : List (List Char) :=
  splitLinesAux content []

/-- The matches of `(?m)^apiVersion:.*$` (resp. `^kind:.*$`) in the raw
content: every line (`^` is anchored at the start of the content and
after each `\n`, `.*$` extends to the end of the line) that starts with
the key; each match is the whole line. -/
def matchedLines (key : String) (content : String) : List String :=
  ((splitLines content.data).filter (fun line => key.data.isPrefixOf line)).map String.mk

/-- `multipleKeysErr(keyName, keys)`: a `ErrKindValidationFailed` error
naming the key and listing the matched lines. -/
def multipleKeysErr (keyName : String) (keys : List String) : VErr :=
  .multipleKeys keyName keys

/-- `contentHasMultipleSchemaKeys`: `FindAll(content, 2)` for the
`apiVersion` regex first, then the `kind` regex; more than one match
fails with `multipleKeysErr`. -/
def contentHasMultipleSchemaKeys (content : String) : Option VErr :=
  let av := (matchedLines "apiVersion:" content).take 2
  if 1 < av.length then some (multipleKeysErr "apiVersion" av)
  else
    let kd := (matchedLines "kind:" content).take 2
    if 1 < kd.length then some (multipleKeysErr "kind" kd)
    else none

/-- The `parseIndexOption` functional options (only field:
`noCheckIsValid`, set by `ParseIndexWithoutCheckValid`). -/
structure ParseIndexOptions where
  noCheckIsValid : Bool
deriving DecidableEq, Repr

/-- `SchemaIndex.invalidIndexErr`. -/
def invalidIndexErr (i : SchemaIndex) (doc : String) : VErr :=
  .invalidIndex i.Version i.Kind doc

/-- `ParseIndex`: read everything from the reader (`reader` is the
outcome of `io.ReadAll`, a read failure wrapped with `ErrRead`), scan for
duplicate schema keys, unmarshal leniently into a `SchemaIndex`
(`unmarshalIndex` is the external `yaml.Unmarshal`), and unless
`noCheckIsValid` is set require the index to be complete. -/
def parseIndex (unmarshalIndex : String → Except String SchemaIndex)
    (reader : Except String String) (options : ParseIndexOptions) :
    Except VErr SchemaIndex :=
  match reader with
  | .error e => .error (.read e)
  | .ok content =>
    match contentHasMultipleSchemaKeys content with
    | some e => .error e
    | none =>
      match unmarshalIndex content with
      | .error e => .error (.indexUnmarshalFailed e)
      | .ok index =>
        if !options.noCheckIsValid && !index.IsValid then
          .error (invalidIndexErr index content)
        else
          .ok index

/-! ## ExtensionsValidator (extension rule engine)

Caller-supplied rule handlers (`ExtensionsValidatorHandler`, Go:
`func(json.RawMessage) error`) are modelled as `String → Option String`
(raw fragment to optional error message).  The external decoders used by
the engine are grouped in `DecodeOracles`.  Besides the error the Go
functions return, the embedding also returns a ghost trace of handler
invocations — the list of `(rule, fragment)` pairs, in call order — used
to state which rules actually ran; the error component alone mirrors the
source. -/

/-- Decoders used by the engine:
`fieldMap` is `yaml.Unmarshal(data, &map[string]json.RawMessage)`;
`rawList` is `json.Unmarshal(data, &[]json.RawMessage)`. -/
structure DecodeOracles where
  fieldMap : String → Except String (List (String × String))
  rawList : String → Except String (List String)

/-- Go map read `m[k]` returning the `(value, ok)` pair as an `Option`. -/
def mapGet {α β : Type _} [DecidableEq α] (m : List (α × β)) (k : α) : Option β :=
  (m.find? (fun e => e.1 = k)).map (·.2)

/-- `ExtensionsValidator{name, validators}`. -/
structure ExtensionsValidator where
  name : String
  validators : List (String × (String → Option String))

namespace ExtensionsValidator

/-- First loop of `validateData`: the node's own rules.
`for _, rule := range rules`: an unregistered rule is skipped
(`continue`); a registered handler is invoked on the whole fragment and
its error aborts. -/
def runOwnRules (v : ExtensionsValidator) (data : String) :
    List String → Option XErr × List (String × String)
  | [] => (none, [])
  | rule :: rest =>
    match mapGet v.validators rule with
    | none => runOwnRules v data rest
    | some h =>
      match h data with
      | some e => (some (.leaf e), [(rule, data)])
      | none =>
        let r := runOwnRules v data rest
        (r.1, (rule, data) :: r.2)

/-- `for _, item := range items`: run the handler on each decoded item,
aborting at the first error. -/
def runItemsLoop (h : String → Option String) (rule : String) :
    List String → Option XErr × List (String × String)
  | [] => (none, [])
  | item :: rest =>
    match h item with
    | some e => (some (.leaf e), [(rule, item)])
    | none =>
      let r := runItemsLoop h rule rest
      (r.1, (rule, item) :: r.2)

/-- Second loop of `validateData`, over the item schema's rules: an
unregistered rule is skipped; for a registered rule, empty data returns
nil from `validateData` ("avoid validation exception by validation empty
data"); otherwise the data is decoded as a list of raw fragments (a
decode error aborts) and the handler runs on every item. -/
def runItemRules (dec : DecodeOracles) (v : ExtensionsValidator) (data : String) :
    List String → Option XErr × List (String × String)
  | [] => (none, [])
  | rule :: rest =>
    match mapGet v.validators rule with
    | none => runItemRules dec v data rest
    | some h =>
      if data.length = 0 then (none, [])
      else
        match dec.rawList data with
        | .error e => (some (.leaf e), [])
        | .ok items =>
          match runItemsLoop h rule items with
          | (some e, tr) => (some e, tr)
          | (none, tr) =>
            let r := runItemRules dec v data rest
            (r.1, tr ++ r.2)

/-- `ExtensionsValidator.validateData`: run the node's own rules (via
`Extensions.GetStringSlice(v.name)`), then — when
`schema.SchemaProps.Items != nil && schema.SchemaProps.Items.Schema !=
nil` — the rules declared on the array item schema. -/
def validateData (dec : DecodeOracles) (v : ExtensionsValidator)
    (data : String) (schema : Schema) : Option XErr × List (String × String) :=
  let own :=
    match getStringSlice schema.extensions v.name with
    | some rules => runOwnRules v data rules
    | none => (none, [])
  match own with
  | (some e, tr) => (some e, tr)
  | (none, tr) =>
    match schema.items with
    | some (some itemSchema, _) =>
      match getStringSlice itemSchema.extensions v.name with
      | some rules =>
        let r := runItemRules dec v data rules
        (r.1, tr ++ r.2)
      | none => (none, tr)
    | _ => (none, tr)

mutual

/-- `ExtensionsValidator.Validate`: nil `Properties` returns nil at once;
otherwise decode the fragment into a field map, run `validateData` on
this node, then for each declared property run `validateData` and recurse
on the matching data field (a missing field yields the nil/empty raw
fragment), wrapping any error with the field name. -/
def Validate (dec : DecodeOracles) (v : ExtensionsValidator)
    (data : String) (schema : Schema) : Option XErr × List (String × String) :=
  match schema with
  | .mk _ none _ _ => (none, [])
  | .mk ap (some props) its exts =>
    match dec.fieldMap data with
    | .error e => (some (.leaf e), [])
    | .ok properties =>
      match validateData dec v data (.mk ap (some props) its exts) with
      | (some e, tr) => (some e, tr)
      | (none, tr) =>
        let r := validateProps dec v properties props
        (r.1, tr ++ r.2)
termination_by sizeOf schema
decreasing_by all_goals (simp_wf; try omega)

/-- The `for field, fieldSchema := range schema.Properties` loop of
`Validate`. -/
def validateProps (dec : DecodeOracles) (v : ExtensionsValidator)
    (properties : List (String × String)) :
    List (String × Schema) → Option XErr × List (String × String)
  | [] => (none, [])
  | (field, fieldSchema) :: rest =>
    let fragment := (mapGet properties field).getD ""
    match validateData dec v fragment fieldSchema with
    | (some e, tr) => (some (.field field e), tr)
    | (none, tr1) =>
      match Validate dec v fragment fieldSchema with
      | (some e, tr2) => (some (.field field e), tr1 ++ tr2)
      | (none, tr2) =>
        let r := validateProps dec v properties rest
        (r.1, tr1 ++ tr2 ++ r.2)
termination_by l => sizeOf l
decreasing_by all_goals (simp_wf; try omega)

end

end ExtensionsValidator

/-! ## Validator (`validator.go`) -/

/-- The `validateOptions` built by the `ValidateOption` functional
options. -/
structure ValidateOptions where
  omitDocInError : Bool
  strictUnmarshal : Bool
  noPrettyError : Bool
deriving DecidableEq, Repr

/-- External capabilities consumed by the validator, over an abstract
type `V` of decoded generic values (`map[string]interface{}`) and `R` of
structural-validation results (`*validate.Result`):

* `yamlUnmarshalIndex` — `yaml.Unmarshal` into a `SchemaIndex`;
* `yamlUnmarshal` / `yamlUnmarshalStrict` — `yaml.Unmarshal` /
  `yaml.UnmarshalStrict` into a generic value;
* `schemaValidate` — `validate.NewSchemaValidator(schema, nil, "",
  strfmt.Default).Validate(blank)`;
* `resultIsValid`, `resultErrors`, `resultData` — the corresponding
  observations on the result;
* `applyDefaults` — `post.ApplyDefaults`;
* `jsonMarshal` — `json.Marshal`;
* `decode` — the decoders used by the extension rule engine. -/
structure Externals (V R : Type) where
  yamlUnmarshalIndex : String → Except String SchemaIndex
  yamlUnmarshal : String → Except String V
  yamlUnmarshalStrict : String → Except String V
  schemaValidate : Schema → V → R
  resultIsValid : R → Bool
  resultErrors : R → List String
  resultData : R → V
  applyDefaults : R → R
  jsonMarshal : V → String
  decode : DecodeOracles

/-- The `Validator` registry.  Go maps are association lists;
caller-supplied pre-validators are `(doc, currentSchema) → (schema,
error)` functions; transformers (an interface) are schema functions
(`govalue.IsNil` entries, skipped by the source, are not representable
for total functions). -/
structure Validator where
  schemas : List (SchemaIndex × Schema)
  preValidators : List (SchemaIndex × (String → Option Schema → Except String (Option Schema)))
  versionFallbacks : List (String × String)
  transformers : List (SchemaIndex × List (Schema → Schema))
  defaultTransformers : List (Schema → Schema)
  extensionsValidators : List ExtensionsValidator

namespace Validator

/-- `Validator.Get`: registry lookup (a missing entry is a nil schema). -/
def Get (v : Validator) (index : SchemaIndex) : Option Schema :=
  mapGet v.schemas index

/-- `Validator.getSchemaWithFallback`: direct lookup; on a miss consult
`versionFallbacks[index.Version]`; when present and non-empty, rewrite
`index.Version` in place and retry the direct lookup once.  Returns the
schema together with the (possibly rewritten) index. -/
def getSchemaWithFallback (v : Validator) (index : SchemaIndex) :
    Option Schema × SchemaIndex :=
  match v.Get index with
  | some s => (some s, index)
  | none =>
    match mapGet v.versionFallbacks index.Version with
    | none => (none, index)
    | some fallback =>
      if fallback = "" then (none, index)
      else
        let index' := { index with Version := fallback }
        (v.Get index', index')

/-- `Validator.addTransformersForSchema`: the per-index transformer list,
falling back to the default list when empty or unregistered; apply each
transformer in order. -/
def addTransformersForSchema (v : Validator) (index : SchemaIndex)
    (schema : Schema) : Schema :=
  let ts := (mapGet v.transformers index).getD []
  let ts := if ts.length = 0 then v.defaultTransformers else ts
  if ts.length = 0 then schema
  else ts.foldl (fun s t => t s) schema

/-- The `for _, extensionsValidator := range v.extensionsValidators`
loop of `openAPIValidate`: run each engine in order on the raw document
bytes against the (transformed) schema; the first error aborts. -/
def runExtensionsValidators (dec : DecodeOracles)
    (vs : List ExtensionsValidator) (dataBytes : String) (schema : Schema) :
    Option XErr :=
  match vs with
  | [] => none
  | ev :: rest =>
    match (ExtensionsValidator.Validate dec ev dataBytes schema).1 with
    | some e => some e
    | none => runExtensionsValidators dec rest dataBytes schema

/-- `Validator.openAPIValidate`: unmarshal the document (strict mode per
options), run the structural validator; on structural failure aggregate
all errors (`multierror`, nil when the error list is empty); otherwise
run the extension validators on the raw bytes; on full success apply
defaults and overwrite the buffer with the re-marshalled defaulted value.
Returns `((isValid, multiErr), buffer-after-the-call)`. -/
def openAPIValidate {V R : Type} (ext : Externals V R) (v : Validator)
    (dataObj : String) (schema : Schema) (options : ValidateOptions) :
    (Bool × Option VErr) × String :=
  let unmarshalled :=
    if options.strictUnmarshal then ext.yamlUnmarshalStrict dataObj
    else ext.yamlUnmarshal dataObj
  match unmarshalled with
  | .error e => ((false, some (.openAPIUnmarshal options.strictUnmarshal e)), dataObj)
  | .ok blank =>
    let result := ext.schemaValidate schema blank
    if !ext.resultIsValid result then
      let errs := ext.resultErrors result
      ((false, if errs.isEmpty then none else some (.structuralErrors errs)), dataObj)
    else
      match runExtensionsValidators ext.decode v.extensionsValidators dataObj schema with
      | some e => ((false, some (.extensionFailed e)), dataObj)
      | none =>
        ((true, none), ext.jsonMarshal (ext.resultData (ext.applyDefaults result)))

/-- `Validator.ValidateWithIndex`: reject an incomplete index; resolve
the schema (possibly rewriting the index version in place); run a
registered pre-validator (its error aborts verbatim); fail with the
distinguished `ErrSchemaNotFound` when the schema is still nil; apply the
transformer pipeline; run `openAPIValidate` on a copy of the buffer; on
failure wrap per the error-message options and leave the caller's buffer
untouched; on success overwrite the caller's buffer.  Returns
`(error, index-after-the-call, buffer-after-the-call)`. -/
def ValidateWithIndex {V R : Type} (ext : Externals V R) (v : Validator)
    (index : SchemaIndex) (doc : String) (options : ValidateOptions) :
    Option VErr × SchemaIndex × String :=
  if !index.IsValid then
    (some (.invalidIndex index.Version index.Kind doc), index, doc)
  else
    let docForValidate := doc
    let resolved := v.getSchemaWithFallback index
    let index1 := resolved.2
    let preOutcome : Except String (Option Schema) :=
      match mapGet v.preValidators index1 with
      | some pv => pv docForValidate resolved.1
      | none => .ok resolved.1
    match preOutcome with
    | .error e => (some (.preValidator e), index1, doc)
    | .ok none => (some .schemaNotFound, index1, doc)
    | .ok (some schema1) =>
      let schema2 := v.addTransformersForSchema index1 schema1
      let res := openAPIValidate ext v docForValidate schema2 options
      if !res.1.1 then
        if options.omitDocInError || options.noPrettyError then
          (some (.validationFailed true index1 "" res.1.2), index1, doc)
        else
          (some (.validationFailed false index1 doc res.1.2), index1, doc)
      else
        (none, index1, res.2)

/-- `Validator.Validate`: leniently unmarshal the index from the raw
bytes and delegate to `ValidateWithIndex`.  Returns the (possibly
rewritten) index only when the unmarshal itself succeeded. -/
def Validate {V R : Type} (ext : Externals V R) (v : Validator)
    (doc : String) (options : ValidateOptions) :
    Option VErr × Option SchemaIndex × String :=
  match ext.yamlUnmarshalIndex doc with
  | .error e => (some (.indexUnmarshalValidate e), none, doc)
  | .ok index =>
    let r := ValidateWithIndex ext v index doc options
    (r.1, some r.2.1, r.2.2)

end Validator

/-! ## Pointer-level view of the transformer pipeline

`AdditionalPropertiesTransformer.Transform` never copies its argument:
every write (`s.AdditionalProperties = …`, `s.Properties[k] = …`,
`s.Items.Schema = …`, `s.Items.Schemas[i] = …`) goes through the argument
pointer or objects shared with it, and the function returns the argument
pointer itself.  Hence after `t.Transform(p)` the schema value stored at
`p` is the value-level `transform` of its previous contents.  The
registry (`Validator.schemas`) holds such pointers, so a heap of schema
cells makes the effect of `addTransformersForSchema` on the registry
observable: addresses are indices into a list of cells. -/

/-- Read a heap cell (out-of-range reads yield the zero schema; the
theorems only use in-range addresses). -/
def cellGet (heap : List Schema) (a : Nat) : Schema :=
  heap[a]?.getD Schema.empty

/-- One `t.Transform(ptr)` call of the pipeline loop, for `t` an
`AdditionalPropertiesTransformer` with flag `dis`: the pointed-to cell is
overwritten with the value-level transform of its contents and the
argument pointer is returned. -/
def transformInPlace (dis : Bool) (heap : List Schema) (a : Nat) :
    List Schema × Nat :=
  (heap.set a (transform dis (cellGet heap a)), a)

/-- The `for _, t := range transformers { schema = t.Transform(schema) }`
loop of `addTransformersForSchema`, when every registered transformer is
an `AdditionalPropertiesTransformer` (each given by its `disallowFull`
flag), acting on the heap. -/
def applyTransformersInPlace (flags : List Bool) (heap : List Schema) (a : Nat) :
    List Schema × Nat :=
  match flags with
  | [] => (heap, a)
  | dis :: rest =>
    let r := transformInPlace dis heap a
    applyTransformersInPlace rest r.1 r.2

/-! ## Observations on schema trees

Boolean observations used to state what the transformer guarantees,
phrased over the tree reachable through property edges and array-item
edges (the edges `Transform` walks). -/

mutual

/-- Some node reachable through property / item edges (the root included)
has no `AdditionalProperties` declaration at all (nil pointer). -/
def existsReachableUnsetAP : Schema → Bool
  | .mk ap props its _ =>
    (match ap with | none => true | some _ => false) ||
    (match props with
     | none => false
     | some l => existsUnsetInProps l) ||
    (match its with
     | none => false
     | some (isc, iscs) =>
       (match isc with | none => false | some s => existsReachableUnsetAP s) ||
       existsUnsetInList iscs)

def existsUnsetInProps : List (String × Schema) → Bool
  | [] => false
  | (_, p) :: rest => existsReachableUnsetAP p || existsUnsetInProps rest

def existsUnsetInList : List Schema → Bool
  | [] => false
  | s :: rest => existsReachableUnsetAP s || existsUnsetInList rest

end

mutual

/-- Every node reachable through property / item edges (the root
included) carries the closed `AdditionalProperties` value
`&spec.SchemaOrBool{Allows: false}`. -/
def allReachableClosedAP : Schema → Bool
  | .mk ap props its _ =>
    (match ap with | some (false, none) => true | _ => false) &&
    (match props with
     | none => true
     | some l => allClosedInProps l) &&
    (match its with
     | none => true
     | some (isc, iscs) =>
       (match isc with | none => true | some s => allReachableClosedAP s) &&
       allClosedInList iscs)

def allClosedInProps : List (String × Schema) → Bool
  | [] => true
  | (_, p) :: rest => allReachableClosedAP p && allClosedInProps rest

def allClosedInList : List Schema → Bool
  | [] => true
  | s :: rest => allReachableClosedAP s && allClosedInList rest

end

mutual

/-- Shape guaranteed by variant (a) of the transformer: the node carries
some `AdditionalProperties` declaration, so does every immediate
property, and the guarantee recurses along array-item edges (the edges
the walk always descends).  It does not recurse below a property, because
the walk descends into a property's subtree only when that property's
flag was unset. -/
def declaredAlongWalk : Schema → Bool
  | .mk ap props its _ =>
    ap.isSome &&
    (match props with
     | none => true
     | some l => l.all (fun kp => kp.2.additionalProperties.isSome)) &&
    (match its with
     | none => true
     | some (isc, iscs) =>
       (match isc with | none => true | some s => declaredAlongWalk s) &&
       declaredWalkList iscs)

def declaredWalkList : List Schema → Bool
  | [] => true
  | s :: rest => declaredAlongWalk s && declaredWalkList rest

end

/-! ## Concrete instances used by witnesses and counterexamples -/

/-- Decoders that decode everything to the empty field map / item list. -/
def decodeTrivial : DecodeOracles := ⟨fun _ => .ok [], fun _ => .ok []⟩

/-- A rule handler that rejects every fragment. -/
def alwaysFailHandler : String → Option String := fun _ => some "rule rejected"

/-- A rule handler that accepts every fragment. -/
def alwaysOkHandler : String → Option String := fun _ => none

/-- An extensions validator with one registered rule. -/
def evDemo : ExtensionsValidator := ⟨"x-rules", [("passphrase", alwaysOkHandler)]⟩

/-- Externals for which every document decodes, validates, and re-encodes
to the fixed string `reencoded`. -/
def extStable : Externals Nat Nat where
  yamlUnmarshalIndex := fun _ => .ok ⟨"TestKind", "deckhouse.io/v1"⟩
  yamlUnmarshal := fun d => if d = "orig" then .ok 0 else .ok 1
  yamlUnmarshalStrict := fun _ => .ok 2
  schemaValidate := fun _ b => b
  resultIsValid := fun _ => true
  resultErrors := fun _ => []
  resultData := fun r => r
  applyDefaults := fun r => r
  jsonMarshal := fun _ => "reencoded"
  decode := decodeTrivial

/-- A pre-validator that passes the current schema through for the
original document and rejects anything else (in particular the re-encoded
output of a successful validation). -/
def preValidatorRejectsReencoded : String → Option Schema → Except String (Option Schema) :=
  fun doc sc => if doc = "orig" then .ok sc else .error "pre-validator rejected document"

/-- A registry with one schema for `(TestKind, deckhouse.io/v1)` and
`preValidatorRejectsReencoded` registered at that index. -/
def validatorWithPreValidator : Validator :=
  ⟨[(⟨"TestKind", "deckhouse.io/v1"⟩, Schema.empty)],
   [(⟨"TestKind", "deckhouse.io/v1"⟩, preValidatorRejectsReencoded)],
   [], [], [], []⟩

/-- A registry with one schema, no hooks. -/
def validatorPlain : Validator :=
  ⟨[(⟨"TestKind", "deckhouse.io/v1"⟩, Schema.empty)], [], [], [], [], []⟩

/-- A registry with one schema, a fallback onto its version, and a
fallback entry mapping `empty` to the empty string. -/
def validatorWithFallback : Validator :=
  ⟨[(⟨"TestKind", "deckhouse.io/v1"⟩, Schema.empty)], [],
   [("deckhouse.io/v1alpha1", "deckhouse.io/v1"), ("empty", "")], [], [], []⟩

/-- All validate options off. -/
def optionsNone : ValidateOptions := ⟨false, false, false⟩

/-- The expected handler-invocation trace of the item-rules loop: for
each declared rule with a registered handler, in declaration order, one
invocation per decoded item, in item order. -/
def itemRuleTrace (validators : List (String × (String → Option String)))
    (rules : List String) (items : List String) : List (String × String) :=
  match rules with
  | [] => []
  | r :: rest =>
    match mapGet validators r with
    | none => itemRuleTrace validators rest items
    | some _ => items.map (fun i => (r, i)) ++ itemRuleTrace validators rest items

/-- Decoders whose item-list decode recognizes the fragment `docitems`. -/
def decodeItems : DecodeOracles :=
  ⟨fun _ => .ok [], fun d => if d = "docitems" then .ok ["ok1", "ok2"] else .ok []⟩

end DhctlValidation

namespace DhctlValidation

/-! # Theorems -/

/-! ## Claim C7 — Group / GroupVersion -/

theorem takeWhile_slash_append (l : List Char) (h : '/' ∈ l) :
    l.takeWhile (· != '/') ++ '/' :: (l.dropWhile (· != '/')).drop 1 = l := by
  induction l with
  | nil => cases h
  | cons c t ih =>
    rcases eq_or_ne c '/' with rfl | hc
    · simp [List.takeWhile_cons, List.dropWhile_cons]
    · have ht : '/' ∈ t := by
        rcases List.mem_cons.mp h with h1 | h1
        · exact absurd h1.symm hc
        · exact h1
      have hb : (c != '/') = true := by simp [hc]
      rw [List.takeWhile_cons, List.dropWhile_cons, if_pos hb, if_pos hb, List.cons_append]
      exact congrArg (c :: ·) (ih ht)

/-- Claim C7: for every `SchemaIndex`: if `Version` contains exactly one
`/` then `Group() ++ "/" ++ GroupVersion() = Version`; if it contains no
`/` then `Group()` is empty and `GroupVersion()` is `Version`; with two
or more `/` both outputs coincide, equal the sentinel
`InvalidGroupPrefix ++ " " ++ Version`, and carry the fixed detectable
prefix `invalid:`. -/
theorem C7_group_and_group_version :
    (∀ i : SchemaIndex, i.Version.data.count '/' = 1 →
        i.Group ++ "/" ++ i.GroupVersion = i.Version) ∧
    (∀ i : SchemaIndex, i.Version.data.count '/' = 0 →
        i.Group = "" ∧ i.GroupVersion = i.Version) ∧
    (∀ i : SchemaIndex, 2 ≤ i.Version.data.count '/' →
        i.Group = i.GroupVersion ∧
        i.Group = InvalidGroupPrefix ++ " " ++ i.Version ∧
        ∃ rest, i.Group = InvalidGroupPrefix ++ rest) := by
  refine ⟨?_, ?_, ?_⟩
  · intro i h
    have hmem : '/' ∈ i.Version.data := List.count_pos_iff.mp (by omega)
    have hne : i.Version ≠ "" := by
      intro he
      rw [he] at h
      simp at h
    simp only [SchemaIndex.Group, SchemaIndex.GroupVersion, SchemaIndex.GroupAndGroupVersion,
      if_neg hne, h]
    norm_num
    apply String.ext
    rw [String.data_append, String.data_append]
    simpa using takeWhile_slash_append i.Version.data hmem
  · intro i h
    by_cases hne : i.Version = ""
    · simp [SchemaIndex.Group, SchemaIndex.GroupVersion, SchemaIndex.GroupAndGroupVersion, hne]
    · simp [SchemaIndex.Group, SchemaIndex.GroupVersion, SchemaIndex.GroupAndGroupVersion, hne, h]
  · intro i h
    have hne : i.Version ≠ "" := by
      intro he
      rw [he] at h
      simp at h
    have h0 : ¬ (i.Version.data.count '/' = 0) := by omega
    have h1 : ¬ (i.Version.data.count '/' = 1) := by omega
    simp only [SchemaIndex.Group, SchemaIndex.GroupVersion, SchemaIndex.GroupAndGroupVersion,
      if_neg hne, if_neg h0, if_neg h1]
    refine ⟨?_, ?_, ⟨" " ++ i.Version, ?_⟩⟩
    · trivial
    · trivial
    · rw [String.append_assoc]

/-- Witness for C7 at `Version` values with one, zero, and three slashes. -/
theorem C7_group_and_group_version_witness :
    ((SchemaIndex.mk "K" "dhctl.deckhouse.io/v1").Version.data.count '/' = 1 ∧
      (SchemaIndex.mk "K" "dhctl.deckhouse.io/v1").Group ++ "/" ++
        (SchemaIndex.mk "K" "dhctl.deckhouse.io/v1").GroupVersion = "dhctl.deckhouse.io/v1") ∧
    ((SchemaIndex.mk "K" "v1").Version.data.count '/' = 0 ∧
      (SchemaIndex.mk "K" "v1").Group = "" ∧
      (SchemaIndex.mk "K" "v1").GroupVersion = "v1") ∧
    (2 ≤ (SchemaIndex.mk "K" "deckhouse.io/dhctl/v1").Version.data.count '/' ∧
      (SchemaIndex.mk "K" "deckhouse.io/dhctl/v1").Group =
        (SchemaIndex.mk "K" "deckhouse.io/dhctl/v1").GroupVersion) :=
  ⟨⟨by decide, C7_group_and_group_version.1 ⟨"K", "dhctl.deckhouse.io/v1"⟩ (by decide)⟩,
   ⟨by decide, C7_group_and_group_version.2.1 ⟨"K", "v1"⟩ (by decide)⟩,
   ⟨by decide, (C7_group_and_group_version.2.2 ⟨"K", "deckhouse.io/dhctl/v1"⟩ (by decide)).1⟩⟩

/-! ## Claim C6 — duplicate schema keys in ParseIndex -/

theorem contentHasMultipleSchemaKeys_apiVersion (content : String)
    (h : 2 ≤ (matchedLines "apiVersion:" content).length) :
    contentHasMultipleSchemaKeys content =
      some (multipleKeysErr "apiVersion" ((matchedLines "apiVersion:" content).take 2)) := by
  have hlen : 1 < ((matchedLines "apiVersion:" content).take 2).length := by
    rw [List.length_take]
    omega
  simp only [contentHasMultipleSchemaKeys]
  rw [if_pos hlen]

theorem contentHasMultipleSchemaKeys_kind (content : String)
    (h1 : (matchedLines "apiVersion:" content).length ≤ 1)
    (h2 : 2 ≤ (matchedLines "kind:" content).length) :
    contentHasMultipleSchemaKeys content =
      some (multipleKeysErr "kind" ((matchedLines "kind:" content).take 2)) := by
  have hA : ¬ 1 < ((matchedLines "apiVersion:" content).take 2).length := by
    rw [List.length_take]
    omega
  have hK : 1 < ((matchedLines "kind:" content).take 2).length := by
    rw [List.length_take]
    omega
  simp only [contentHasMultipleSchemaKeys]
  rw [if_neg hA, if_pos hK]

/-- Claim C6: `ParseIndex` fails with the validation-failed
`multipleKeysErr` — naming the key and listing the (first two) duplicate
matched lines — whenever more than one line of the raw content starts
with `apiVersion:` (resp. `kind:`); occurrences not at start-of-line are
ignored by construction of `matchedLines`.  With two `apiVersion:` lines
the error names `apiVersion` regardless of the `kind` matches, and all of
this holds for every option value, in particular with the
no-completeness-check option set. -/
theorem C6_parse_index_duplicate_keys
    (unm : String → Except String SchemaIndex) (content : String)
    (o : ParseIndexOptions) :
    (2 ≤ (matchedLines "apiVersion:" content).length →
        parseIndex unm (.ok content) o =
          .error (multipleKeysErr "apiVersion" ((matchedLines "apiVersion:" content).take 2))) ∧
    ((matchedLines "apiVersion:" content).length ≤ 1 →
      2 ≤ (matchedLines "kind:" content).length →
        parseIndex unm (.ok content) o =
          .error (multipleKeysErr "kind" ((matchedLines "kind:" content).take 2))) := by
  constructor
  · intro h
    simp [parseIndex, contentHasMultipleSchemaKeys_apiVersion content h]
  · intro h1 h2
    simp [parseIndex, contentHasMultipleSchemaKeys_kind content h1 h2]

/-- Witness for C6: a document with two line-anchored `apiVersion:` keys
and two `kind:` keys fails naming `apiVersion`, with the
no-completeness-check option set; a document with one `apiVersion:` key
and two `kind:` keys fails naming `kind`. -/
theorem C6_parse_index_duplicate_keys_witness :
    (2 ≤ (matchedLines "apiVersion:" "apiVersion: a\nkind: K\n# apiVersion: c\napiVersion: b\nkind: L").length ∧
      parseIndex (fun _ => .ok ⟨"K", "v1"⟩)
          (.ok "apiVersion: a\nkind: K\n# apiVersion: c\napiVersion: b\nkind: L") ⟨true⟩ =
        .error (multipleKeysErr "apiVersion" ["apiVersion: a", "apiVersion: b"])) ∧
    ((matchedLines "apiVersion:" "apiVersion: a\nkind: K\nkind: L").length ≤ 1 ∧
      2 ≤ (matchedLines "kind:" "apiVersion: a\nkind: K\nkind: L").length ∧
      parseIndex (fun _ => .ok ⟨"K", "v1"⟩) (.ok "apiVersion: a\nkind: K\nkind: L") ⟨false⟩ =
        .error (multipleKeysErr "kind" ["kind: K", "kind: L"])) := by
  refine ⟨⟨by decide, ?_⟩, ⟨by decide, by decide, ?_⟩⟩
  · have h := (C6_parse_index_duplicate_keys (fun _ => .ok ⟨"K", "v1"⟩)
      "apiVersion: a\nkind: K\n# apiVersion: c\napiVersion: b\nkind: L" ⟨true⟩).1 (by decide)
    simpa using h
  · have h := (C6_parse_index_duplicate_keys (fun _ => .ok ⟨"K", "v1"⟩)
      "apiVersion: a\nkind: K\nkind: L" ⟨false⟩).2 (by decide) (by decide)
    simpa using h

/-! ## Claim C10 — ExtensionsValidator with nil Properties -/

/-- Claim C10: for every decoder set, extensions validator, and data
fragment, if the schema's `Properties` map is nil then
`ExtensionsValidator.Validate` returns nil immediately: no error and no
rule-handler invocation (empty ghost trace) — even when the schema or its
array-item schema declares rule names. -/
theorem C10_nil_properties_no_rules (dec : DecodeOracles)
    (v : ExtensionsValidator) (data : String) (schema : Schema)
    (h : schema.properties = none) :
    ExtensionsValidator.Validate dec v data schema = (none, []) := by
  cases schema with
  | mk ap props its exts =>
    cases props with
    | none => simp [ExtensionsValidator.Validate]
    | some l => simp [Schema.properties] at h

/-- Witness for C10: a property-less schema carrying `x-rules` on itself
and on its array item schema, with a handler registered for the declared
rule, still validates to nil with no handler invocation. -/
theorem C10_nil_properties_no_rules_witness :
    (Schema.mk none none
        (some (some (.mk none none none [("x-rules", ["passphrase"])]), []))
        [("x-rules", ["passphrase"])]).properties = none ∧
    ExtensionsValidator.Validate decodeTrivial ⟨"x-rules", [("passphrase", alwaysFailHandler)]⟩ "doc"
        (Schema.mk none none
          (some (some (.mk none none none [("x-rules", ["passphrase"])]), []))
          [("x-rules", ["passphrase"])]) = (none, []) :=
  ⟨rfl,
   C10_nil_properties_no_rules decodeTrivial ⟨"x-rules", [("passphrase", alwaysFailHandler)]⟩ "doc"
     _ rfl⟩

/-! ## Claim C2 — schema resolution with one-hop fallback -/

/-- Claim C2: schema resolution does a direct lookup by `(kind,
version)`; on a miss it consults `versionFallbacks[version]` — absent or
empty entries leave the index untouched and yield a nil schema, while a
present non-empty entry rewrites the index's version in place and retries
the direct lookup exactly once (the retry's result is final: no second
hop, even when it also misses); and when the schema is still nil after
resolution plus pre-validation, `ValidateWithIndex` fails with the
distinguished `schemaNotFound` error (a constructor distinct from every
generic validation-failure error). -/
theorem C2_resolve_schema_fallback (V R : Type) :
    (∀ (v : Validator) (index : SchemaIndex) (s : Schema),
        v.Get index = some s →
        v.getSchemaWithFallback index = (some s, index)) ∧
    (∀ (v : Validator) (index : SchemaIndex),
        v.Get index = none →
        mapGet v.versionFallbacks index.Version = none →
        v.getSchemaWithFallback index = (none, index)) ∧
    (∀ (v : Validator) (index : SchemaIndex),
        v.Get index = none →
        mapGet v.versionFallbacks index.Version = some "" →
        v.getSchemaWithFallback index = (none, index)) ∧
    (∀ (v : Validator) (index : SchemaIndex) (fb : String),
        v.Get index = none →
        mapGet v.versionFallbacks index.Version = some fb →
        fb ≠ "" →
        v.getSchemaWithFallback index =
          (v.Get { index with Version := fb }, { index with Version := fb })) ∧
    (∀ (ext : Externals V R) (v : Validator) (index : SchemaIndex)
        (doc : String) (opts : ValidateOptions),
        index.IsValid = true →
        (match mapGet v.preValidators (v.getSchemaWithFallback index).2 with
         | some pv => pv doc (v.getSchemaWithFallback index).1
         | none => .ok (v.getSchemaWithFallback index).1) = .ok none →
        Validator.ValidateWithIndex ext v index doc opts =
          (some .schemaNotFound, (v.getSchemaWithFallback index).2, doc)) := by
  refine ⟨?_, ?_, ?_, ?_, ?_⟩
  · intro v index s h
    simp [Validator.getSchemaWithFallback, h]
  · intro v index h1 h2
    simp [Validator.getSchemaWithFallback, h1, h2]
  · intro v index h1 h2
    simp [Validator.getSchemaWithFallback, h1, h2]
  · intro v index fb h1 h2 h3
    simp [Validator.getSchemaWithFallback, h1, h2, h3]
  · intro ext v index doc opts hvalid hpre
    simp only [Validator.ValidateWithIndex, hvalid, Bool.not_true, Bool.false_eq_true,
      if_false, hpre]

/-- Witness for C2: direct hit; miss without fallback; miss with empty
fallback; miss with the seeded `deckhouse.io/v1alpha1 → deckhouse.io/v1`
fallback resolving in one hop; and the schema-not-found failure of
`ValidateWithIndex`. -/
theorem C2_resolve_schema_fallback_witness :
    validatorWithFallback.getSchemaWithFallback ⟨"TestKind", "deckhouse.io/v1"⟩ =
      (some Schema.empty, ⟨"TestKind", "deckhouse.io/v1"⟩) ∧
    validatorWithFallback.getSchemaWithFallback ⟨"TestKind", "nope"⟩ =
      (none, ⟨"TestKind", "nope"⟩) ∧
    validatorWithFallback.getSchemaWithFallback ⟨"TestKind", "empty"⟩ =
      (none, ⟨"TestKind", "empty"⟩) ∧
    validatorWithFallback.getSchemaWithFallback ⟨"TestKind", "deckhouse.io/v1alpha1"⟩ =
      (some Schema.empty, ⟨"TestKind", "deckhouse.io/v1"⟩) ∧
    Validator.ValidateWithIndex extStable validatorPlain ⟨"TestKind", "nope"⟩ "doc" optionsNone =
      (some .schemaNotFound, ⟨"TestKind", "nope"⟩, "doc") := by
  have h := C2_resolve_schema_fallback Nat Nat
  refine ⟨h.1 validatorWithFallback ⟨"TestKind", "deckhouse.io/v1"⟩ Schema.empty rfl,
          h.2.1 validatorWithFallback ⟨"TestKind", "nope"⟩ rfl rfl,
          h.2.2.1 validatorWithFallback ⟨"TestKind", "empty"⟩ rfl rfl,
          ?_, ?_⟩
  · have h4 := h.2.2.2.1 validatorWithFallback ⟨"TestKind", "deckhouse.io/v1alpha1"⟩
      "deckhouse.io/v1" rfl rfl (by decide)
    simpa using h4
  · have h5 := h.2.2.2.2 extStable validatorPlain ⟨"TestKind", "nope"⟩ "doc" optionsNone
      (by decide) rfl
    simpa using h5

/-! ## Claim C1 — document buffer discipline of ValidateWithIndex -/

/-- Characterization of a successful `openAPIValidate` run: the document
decoded, the structural validator accepted it, and the returned buffer is
the re-encoding (`json.Marshal`) of the defaults-applied
(`post.ApplyDefaults`) validation result. -/
theorem openAPIValidate_success {V R : Type} (ext : Externals V R) (v : Validator)
    (dataObj : String) (schema : Schema) (options : ValidateOptions)
    (h : (Validator.openAPIValidate ext v dataObj schema options).1.1 = true) :
    ∃ blank,
      (if options.strictUnmarshal then ext.yamlUnmarshalStrict dataObj
       else ext.yamlUnmarshal dataObj) = .ok blank ∧
      ext.resultIsValid (ext.schemaValidate schema blank) = true ∧
      (Validator.openAPIValidate ext v dataObj schema options).2 =
        ext.jsonMarshal (ext.resultData (ext.applyDefaults (ext.schemaValidate schema blank))) := by
  simp only [Validator.openAPIValidate] at h ⊢
  rcases hu : (if options.strictUnmarshal then ext.yamlUnmarshalStrict dataObj
       else ext.yamlUnmarshal dataObj) with e | blank
  · rw [hu] at h
    simp at h
  · rw [hu] at h
    by_cases hv : ext.resultIsValid (ext.schemaValidate schema blank) = true
    · rcases hx : Validator.runExtensionsValidators ext.decode v.extensionsValidators dataObj schema with _ | e
      · refine ⟨blank, rfl, hv, ?_⟩
        simp only [hv, Bool.not_true, Bool.false_eq_true, if_false, hx]
      · rw [hx] at h
        simp [hv] at h
    · have hv' : ext.resultIsValid (ext.schemaValidate schema blank) = false := by
        revert hv
        cases ext.resultIsValid (ext.schemaValidate schema blank) <;> simp
      simp [hv'] at h

/-- Claim C1: for every externals oracle, registry state, index, document
and options: whenever `ValidateWithIndex` returns an error — invalid
index, pre-validator error, schema not found, or a wrapped
`openAPIValidate` failure (structural or extension-rule violation) — the
caller's buffer is byte-identical to the input; when it returns nil, the
buffer has been replaced with the re-encoding of the structurally
validated, defaults-applied value of the document. -/
theorem C1_buffer_discipline {V R : Type} (ext : Externals V R) (v : Validator)
    (index : SchemaIndex) (doc : String) (opts : ValidateOptions) :
    ((Validator.ValidateWithIndex ext v index doc opts).1.isSome = true →
        (Validator.ValidateWithIndex ext v index doc opts).2.2 = doc) ∧
    ((Validator.ValidateWithIndex ext v index doc opts).1 = none →
        ∃ (sc : Schema) (blank : V),
          (if opts.strictUnmarshal then ext.yamlUnmarshalStrict doc
           else ext.yamlUnmarshal doc) = .ok blank ∧
          ext.resultIsValid (ext.schemaValidate sc blank) = true ∧
          (Validator.ValidateWithIndex ext v index doc opts).2.2 =
            ext.jsonMarshal (ext.resultData (ext.applyDefaults (ext.schemaValidate sc blank)))) := by
  by_cases hvalid : index.IsValid = true
  · rcases hpo : (match mapGet v.preValidators (v.getSchemaWithFallback index).2 with
       | some pv => pv doc (v.getSchemaWithFallback index).1
       | none => .ok (v.getSchemaWithFallback index).1) with e | osc
    · have hgoal : Validator.ValidateWithIndex ext v index doc opts =
          (some (.preValidator e), (v.getSchemaWithFallback index).2, doc) := by
        simp only [Validator.ValidateWithIndex, hvalid, Bool.not_true, Bool.false_eq_true,
          if_false, hpo]
      rw [hgoal]
      exact ⟨fun _ => rfl, fun hc => by simp at hc⟩
    · rcases osc with _ | schema1
      · have hgoal : Validator.ValidateWithIndex ext v index doc opts =
            (some .schemaNotFound, (v.getSchemaWithFallback index).2, doc) := by
          simp only [Validator.ValidateWithIndex, hvalid, Bool.not_true, Bool.false_eq_true,
            if_false, hpo]
        rw [hgoal]
        exact ⟨fun _ => rfl, fun hc => by simp at hc⟩
      · by_cases hres : (Validator.openAPIValidate ext v doc
            (v.addTransformersForSchema (v.getSchemaWithFallback index).2 schema1) opts).1.1 = true
        · have hgoal : Validator.ValidateWithIndex ext v index doc opts =
              (none, (v.getSchemaWithFallback index).2,
               (Validator.openAPIValidate ext v doc
                 (v.addTransformersForSchema (v.getSchemaWithFallback index).2 schema1) opts).2) := by
            simp only [Validator.ValidateWithIndex, hvalid, Bool.not_true, Bool.false_eq_true,
              if_false, hpo, hres, Bool.not_true]
          rw [hgoal]
          constructor
          · intro hc
            simp at hc
          · intro _
            obtain ⟨blank, hu, hv2, he⟩ := openAPIValidate_success ext v doc
              (v.addTransformersForSchema (v.getSchemaWithFallback index).2 schema1) opts hres
            exact ⟨v.addTransformersForSchema (v.getSchemaWithFallback index).2 schema1,
              blank, hu, hv2, he⟩
        · have hres' : (Validator.openAPIValidate ext v doc
              (v.addTransformersForSchema (v.getSchemaWithFallback index).2 schema1) opts).1.1 = false := by
            revert hres
            cases (Validator.openAPIValidate ext v doc
              (v.addTransformersForSchema (v.getSchemaWithFallback index).2 schema1) opts).1.1 <;> simp
          cases hopt : (opts.omitDocInError || opts.noPrettyError) with
          | true =>
            have hgoal : Validator.ValidateWithIndex ext v index doc opts =
                (some (.validationFailed true (v.getSchemaWithFallback index).2 ""
                  (Validator.openAPIValidate ext v doc
                    (v.addTransformersForSchema (v.getSchemaWithFallback index).2 schema1) opts).1.2),
                 (v.getSchemaWithFallback index).2, doc) := by
              simp only [Validator.ValidateWithIndex, hvalid, Bool.not_true, Bool.false_eq_true,
                if_false, hpo, hres', Bool.not_false, if_true, hopt]
            rw [hgoal]
            exact ⟨fun _ => rfl, fun hc => by simp at hc⟩
          | false =>
            have hgoal : Validator.ValidateWithIndex ext v index doc opts =
                (some (.validationFailed false (v.getSchemaWithFallback index).2 doc
                  (Validator.openAPIValidate ext v doc
                    (v.addTransformersForSchema (v.getSchemaWithFallback index).2 schema1) opts).1.2),
                 (v.getSchemaWithFallback index).2, doc) := by
              simp only [Validator.ValidateWithIndex, hvalid, Bool.not_true, Bool.false_eq_true,
                if_false, hpo, hres', Bool.not_false, if_true, hopt, Bool.false_eq_true]
            rw [hgoal]
            exact ⟨fun _ => rfl, fun hc => by simp at hc⟩
  · have hvalid' : index.IsValid = false := by
      revert hvalid
      cases index.IsValid <;> simp
    have hgoal : Validator.ValidateWithIndex ext v index doc opts =
        (some (.invalidIndex index.Version index.Kind doc), index, doc) := by
      simp only [Validator.ValidateWithIndex, hvalid', Bool.not_false, if_true]
    rw [hgoal]
    exact ⟨fun _ => rfl, fun hc => by simp at hc⟩

/-- Witness for C1: a pre-validator rejection leaves the buffer intact;
a successful validation replaces it with the re-encoded value. -/
theorem C1_buffer_discipline_witness :
    ((Validator.ValidateWithIndex extStable validatorWithPreValidator
        ⟨"TestKind", "deckhouse.io/v1"⟩ "bad" optionsNone).1.isSome = true ∧
      (Validator.ValidateWithIndex extStable validatorWithPreValidator
        ⟨"TestKind", "deckhouse.io/v1"⟩ "bad" optionsNone).2.2 = "bad") ∧
    ((Validator.ValidateWithIndex extStable validatorPlain
        ⟨"TestKind", "deckhouse.io/v1"⟩ "orig" optionsNone).1 = none ∧
      ∃ (sc : Schema) (blank : Nat),
        (if optionsNone.strictUnmarshal then extStable.yamlUnmarshalStrict "orig"
         else extStable.yamlUnmarshal "orig") = .ok blank ∧
        extStable.resultIsValid (extStable.schemaValidate sc blank) = true ∧
        (Validator.ValidateWithIndex extStable validatorPlain
          ⟨"TestKind", "deckhouse.io/v1"⟩ "orig" optionsNone).2.2 =
          extStable.jsonMarshal (extStable.resultData
            (extStable.applyDefaults (extStable.schemaValidate sc blank)))) :=
  ⟨⟨rfl,
    (C1_buffer_discipline extStable validatorWithPreValidator
      ⟨"TestKind", "deckhouse.io/v1"⟩ "bad" optionsNone).1 rfl⟩,
   ⟨rfl,
    (C1_buffer_discipline extStable validatorPlain
      ⟨"TestKind", "deckhouse.io/v1"⟩ "orig" optionsNone).2 rfl⟩⟩

/-! ## Claim C9 — Validator.Validate performs no duplicate-key scan -/

/-- Every error `ValidateWithIndex` can return is one of: invalid index,
pre-validator error, schema not found, or a wrapped validation failure —
never the `multipleKeys` error that only `contentHasMultipleSchemaKeys`
builds. -/
theorem validateWithIndex_ne_multipleKeys {V R : Type} (ext : Externals V R)
    (v : Validator) (index : SchemaIndex) (doc : String) (opts : ValidateOptions)
    (k : String) (ls : List String) :
    (Validator.ValidateWithIndex ext v index doc opts).1 ≠ some (.multipleKeys k ls) := by
  by_cases hvalid : index.IsValid = true
  · rcases hpo : (match mapGet v.preValidators (v.getSchemaWithFallback index).2 with
       | some pv => pv doc (v.getSchemaWithFallback index).1
       | none => .ok (v.getSchemaWithFallback index).1) with e | osc
    · simp only [Validator.ValidateWithIndex, hvalid, Bool.not_true, Bool.false_eq_true,
        if_false, hpo]
      simp
    · rcases osc with _ | schema1
      · simp only [Validator.ValidateWithIndex, hvalid, Bool.not_true, Bool.false_eq_true,
          if_false, hpo]
        simp
      · by_cases hres : (Validator.openAPIValidate ext v doc
            (v.addTransformersForSchema (v.getSchemaWithFallback index).2 schema1) opts).1.1 = true
        · simp only [Validator.ValidateWithIndex, hvalid, Bool.not_true, Bool.false_eq_true,
            if_false, hpo, hres]
          simp
        · have hres' : (Validator.openAPIValidate ext v doc
              (v.addTransformersForSchema (v.getSchemaWithFallback index).2 schema1) opts).1.1 = false := by
            revert hres
            cases (Validator.openAPIValidate ext v doc
              (v.addTransformersForSchema (v.getSchemaWithFallback index).2 schema1) opts).1.1 <;> simp
          simp only [Validator.ValidateWithIndex, hvalid, Bool.not_true, Bool.false_eq_true,
            if_false, hpo, hres', Bool.not_false, if_true]
          cases hopt : (opts.omitDocInError || opts.noPrettyError) <;> simp [hopt]
  · have hvalid' : index.IsValid = false := by
      revert hvalid
      cases index.IsValid <;> simp
    simp only [Validator.ValidateWithIndex, hvalid', Bool.not_false, if_true]
    simp

/-- Claim C9: `Validator.Validate` extracts the index with a plain
lenient unmarshal and performs no duplicate-key scan: even for a document
whose raw bytes contain multiple line-anchored `kind:` or `apiVersion:`
keys, it never returns the `multipleKeys` error `ParseIndex` returns for
the same bytes; the decoder-resolved identity is used and validation
proceeds through `ValidateWithIndex`. -/
theorem C9_validate_no_duplicate_key_scan {V R : Type} (ext : Externals V R)
    (v : Validator) (doc : String) (opts : ValidateOptions)
    (h : (contentHasMultipleSchemaKeys doc).isSome = true) :
    (∀ (k : String) (ls : List String),
        (Validator.Validate ext v doc opts).1 ≠ some (.multipleKeys k ls)) ∧
    (∀ idx, ext.yamlUnmarshalIndex doc = .ok idx →
        Validator.Validate ext v doc opts =
          ((Validator.ValidateWithIndex ext v idx doc opts).1,
           some (Validator.ValidateWithIndex ext v idx doc opts).2.1,
           (Validator.ValidateWithIndex ext v idx doc opts).2.2)) := by
  constructor
  · intro k ls
    unfold Validator.Validate
    rcases hu : ext.yamlUnmarshalIndex doc with e | idx
    · simp
    · simpa using validateWithIndex_ne_multipleKeys ext v idx doc opts k ls
  · intro idx hu
    simp [Validator.Validate, hu]

/-- Witness for C9: a document with two line-anchored `apiVersion:` keys
(on which `ParseIndex` fails with `multipleKeys`) is processed by
`Validate` without that error, via the decoder-resolved identity. -/
theorem C9_validate_no_duplicate_key_scan_witness :
    (contentHasMultipleSchemaKeys "apiVersion: a\napiVersion: b").isSome = true ∧
    (Validator.Validate extStable validatorPlain "apiVersion: a\napiVersion: b" optionsNone).1 ≠
      some (.multipleKeys "apiVersion" ["apiVersion: a", "apiVersion: b"]) ∧
    Validator.Validate extStable validatorPlain "apiVersion: a\napiVersion: b" optionsNone =
      ((Validator.ValidateWithIndex extStable validatorPlain ⟨"TestKind", "deckhouse.io/v1"⟩
          "apiVersion: a\napiVersion: b" optionsNone).1,
       some (Validator.ValidateWithIndex extStable validatorPlain ⟨"TestKind", "deckhouse.io/v1"⟩
          "apiVersion: a\napiVersion: b" optionsNone).2.1,
       (Validator.ValidateWithIndex extStable validatorPlain ⟨"TestKind", "deckhouse.io/v1"⟩
          "apiVersion: a\napiVersion: b" optionsNone).2.2) :=
  ⟨by decide,
   (C9_validate_no_duplicate_key_scan extStable validatorPlain
      "apiVersion: a\napiVersion: b" optionsNone (by decide)).1 "apiVersion"
      ["apiVersion: a", "apiVersion: b"],
   (C9_validate_no_duplicate_key_scan extStable validatorPlain
      "apiVersion: a\napiVersion: b" optionsNone (by decide)).2
      ⟨"TestKind", "deckhouse.io/v1"⟩ rfl⟩

/-! ## Claim C8 — array-item extension rules -/

theorem runOwnRules_unregistered (v : ExtensionsValidator) (data : String) :
    ∀ rules, (∀ r ∈ rules, mapGet v.validators r = none) →
      ExtensionsValidator.runOwnRules v data rules = (none, []) := by
  intro rules
  induction rules with
  | nil => intro _; rfl
  | cons r rest ih =>
    intro h
    have hr := h r (List.mem_cons_self r rest)
    simp only [ExtensionsValidator.runOwnRules, hr]
    exact ih (fun x hx => h x (List.mem_cons_of_mem r hx))

theorem runItemRules_empty_data (dec : DecodeOracles) (v : ExtensionsValidator) :
    ∀ rules, ExtensionsValidator.runItemRules dec v "" rules = (none, []) := by
  intro rules
  induction rules with
  | nil => rfl
  | cons r rest ih =>
    rcases hr : mapGet v.validators r with _ | hh
    · simp only [ExtensionsValidator.runItemRules, hr]
      exact ih
    · simp only [ExtensionsValidator.runItemRules, hr]
      rfl

theorem runItemRules_unregistered (dec : DecodeOracles) (v : ExtensionsValidator) (data : String) :
    ∀ rules, (∀ r ∈ rules, mapGet v.validators r = none) →
      ExtensionsValidator.runItemRules dec v data rules = (none, []) := by
  intro rules
  induction rules with
  | nil => intro _; rfl
  | cons r rest ih =>
    intro h
    have hr := h r (List.mem_cons_self r rest)
    simp only [ExtensionsValidator.runItemRules, hr]
    exact ih (fun x hx => h x (List.mem_cons_of_mem r hx))

theorem runItemsLoop_all_ok (hh : String → Option String) (rule : String) :
    ∀ items, (∀ i ∈ items, hh i = none) →
      ExtensionsValidator.runItemsLoop hh rule items =
        (none, items.map (fun i => (rule, i))) := by
  intro items
  induction items with
  | nil => intro _; rfl
  | cons i rest ih =>
    intro h
    have hi := h i (List.mem_cons_self i rest)
    simp only [ExtensionsValidator.runItemsLoop, hi, List.map_cons]
    rw [ih (fun x hx => h x (List.mem_cons_of_mem i hx))]

theorem runItemRules_all_ok (dec : DecodeOracles) (v : ExtensionsValidator)
    (data : String) (items : List String)
    (hne : ¬ data.length = 0) (hdec : dec.rawList data = .ok items)
    (hok : ∀ r hh, mapGet v.validators r = some hh → ∀ i ∈ items, hh i = none) :
    ∀ rules, ExtensionsValidator.runItemRules dec v data rules =
      (none, itemRuleTrace v.validators rules items) := by
  intro rules
  induction rules with
  | nil => rfl
  | cons r rest ih =>
    rcases hr : mapGet v.validators r with _ | hh
    · simp only [ExtensionsValidator.runItemRules, itemRuleTrace, hr]
      exact ih
    · simp only [ExtensionsValidator.runItemRules, itemRuleTrace, hr, if_neg hne, hdec]
      rw [runItemsLoop_all_ok hh r items (hok r hh hr), ih]

/-- Claim C8: for every extension validator run (`validateData`) at a
schema node whose declared array item schema carries rule names: with all
registered handlers accepting, the handlers run against every item of the
decoded data fragment, rule by rule in declaration order (the ghost trace
is exactly `itemRuleTrace`); an empty or absent fragment (the nil/empty
raw message) is skipped silently with no error and no handler invocation;
and rule names with no matching registered handler are ignored at every
node, never producing an error. -/
theorem C8_item_schema_rules (dec : DecodeOracles) (v : ExtensionsValidator) :
    (∀ (schema : Schema),
        getStringSlice schema.extensions v.name = none →
        ExtensionsValidator.validateData dec v "" schema = (none, [])) ∧
    (∀ (schema : Schema) (data : String) (rules : List String) (itemSchema : Schema)
        (iscs : List Schema) (items : List String),
        getStringSlice schema.extensions v.name = none →
        schema.items = some (some itemSchema, iscs) →
        getStringSlice itemSchema.extensions v.name = some rules →
        ¬ data.length = 0 →
        dec.rawList data = .ok items →
        (∀ r hh, mapGet v.validators r = some hh → ∀ i ∈ items, hh i = none) →
        ExtensionsValidator.validateData dec v data schema =
          (none, itemRuleTrace v.validators rules items)) ∧
    (∀ (schema : Schema) (data : String),
        (∀ r, r ∈ (getStringSlice schema.extensions v.name).getD [] →
            mapGet v.validators r = none) →
        (∀ (itemSchema : Schema) (iscs : List Schema) r,
            schema.items = some (some itemSchema, iscs) →
            r ∈ (getStringSlice itemSchema.extensions v.name).getD [] →
            mapGet v.validators r = none) →
        ExtensionsValidator.validateData dec v data schema = (none, [])) := by
  refine ⟨?_, ?_, ?_⟩
  · intro schema hown
    simp only [ExtensionsValidator.validateData, hown]
    rcases hits : schema.items with _ | ⟨isc, iscs⟩
    · rfl
    · rcases isc with _ | itemSchema
      · rfl
      · dsimp only
        rcases hrules : getStringSlice itemSchema.extensions v.name with _ | rules
        · rfl
        · dsimp only
          rw [runItemRules_empty_data dec v rules]
          rfl
  · intro schema data rules itemSchema iscs items hown hits hrules hne hdec hok
    simp only [ExtensionsValidator.validateData, hown, hits]
    rw [hrules]
    dsimp only
    rw [runItemRules_all_ok dec v data items hne hdec hok rules]
    rfl
  · intro schema data hown hitems
    rcases hrules : getStringSlice schema.extensions v.name with _ | ownRules
    · simp only [ExtensionsValidator.validateData, hrules]
      rcases hits : schema.items with _ | ⟨isc, iscs⟩
      · rfl
      · rcases isc with _ | itemSchema
        · rfl
        · dsimp only
          rcases hr2 : getStringSlice itemSchema.extensions v.name with _ | irules
          · rfl
          · dsimp only
            rw [runItemRules_unregistered dec v data irules
              (fun r hr => hitems itemSchema iscs r hits (by rw [hr2]; exact hr))]
            rfl
    · rw [hrules] at hown
      simp only [Option.getD_some] at hown
      simp only [ExtensionsValidator.validateData, hrules]
      rw [runOwnRules_unregistered v data ownRules hown]
      dsimp only
      rcases hits : schema.items with _ | ⟨isc, iscs⟩
      · rfl
      · rcases isc with _ | itemSchema
        · rfl
        · dsimp only
          rcases hr2 : getStringSlice itemSchema.extensions v.name with _ | irules
          · rfl
          · dsimp only
            rw [runItemRules_unregistered dec v data irules
              (fun r hr => hitems itemSchema iscs r hits (by rw [hr2]; exact hr))]
            rfl

/-- Witness for C8: a concrete node whose item schema declares a
registered `passphrase` rule and an unknown rule: empty data is skipped
silently; non-empty data runs the registered handler on both decoded
items only; a node declaring only unknown rules validates to nil. -/
theorem C8_item_schema_rules_witness :
    (getStringSlice (Schema.mk none none
        (some (some (.mk none none none [("x-rules", ["passphrase", "unknownRule"])]), []))
        []).extensions evDemo.name = none ∧
      ExtensionsValidator.validateData decodeItems evDemo ""
        (Schema.mk none none
          (some (some (.mk none none none [("x-rules", ["passphrase", "unknownRule"])]), []))
          []) = (none, [])) ∧
    ExtensionsValidator.validateData decodeItems evDemo "docitems"
        (Schema.mk none none
          (some (some (.mk none none none [("x-rules", ["passphrase", "unknownRule"])]), []))
          []) = (none, [("passphrase", "ok1"), ("passphrase", "ok2")]) ∧
    ExtensionsValidator.validateData decodeItems evDemo "payload"
        (Schema.mk none none
          (some (some (.mk none none none [("x-rules", ["unknownRule"])]), []))
          [("x-rules", ["alsoUnknown"])]) = (none, []) := by
  refine ⟨⟨rfl, ?_⟩, ?_, ?_⟩
  · exact (C8_item_schema_rules decodeItems evDemo).1 _ rfl
  · have h := (C8_item_schema_rules decodeItems evDemo).2.1
      (Schema.mk none none
        (some (some (.mk none none none [("x-rules", ["passphrase", "unknownRule"])]), []))
        []) "docitems" ["passphrase", "unknownRule"]
      (.mk none none none [("x-rules", ["passphrase", "unknownRule"])]) [] ["ok1", "ok2"]
      rfl rfl rfl (by decide) rfl ?_
    · exact h
    · intro r hh hmg i _
      by_cases hr : ("passphrase" : String) = r
      · rw [← hr] at hmg
        simp [mapGet, evDemo] at hmg
        rw [← hmg]
        rfl
      · simp [mapGet, evDemo, hr] at hmg
  · refine (C8_item_schema_rules decodeItems evDemo).2.2 _ "payload" ?_ ?_
    · intro r hr
      simp [getStringSlice, evDemo, Schema.extensions] at hr
      subst hr
      rfl
    · intro itemSchema iscs r hits hr
      simp [Schema.items] at hits
      rw [← hits.1] at hr
      simp [getStringSlice, evDemo, Schema.extensions] at hr
      subst hr
      rfl

/-! ## Claims C4 and C5 — the AdditionalProperties transformer

Helper lemmas: idempotence of the transform, and the closure invariants
it guarantees. -/

theorem transformProps_cons (dis : Bool) (k : String) (p : Schema)
    (rest : List (String × Schema)) :
    transformProps dis ((k, p) :: rest) =
      (if shouldDisallowAP dis p.additionalProperties then (k, transformClosed dis p)
       else (k, p)) :: transformProps dis rest := rfl

theorem ap_disallow_idem (dis : Bool) (ap : Option (Bool × Option Schema)) :
    (if shouldDisallowAP dis (if shouldDisallowAP dis ap then some (false, none) else ap)
     then some (false, none)
     else (if shouldDisallowAP dis ap then some (false, none) else ap)) =
      (if shouldDisallowAP dis ap then some (false, none) else ap) := by
  cases ap <;> cases dis <;> rfl

mutual

theorem transform_idem (dis : Bool) : (s : Schema) →
    transform dis (transform dis s) = transform dis s
  | .mk ap props its exts => by
    cases props with
    | none =>
      cases its with
      | none =>
        simp only [transform]
        rw [ap_disallow_idem]
      | some p =>
        rcases p with ⟨isc, iscs⟩
        cases isc with
        | none =>
          simp only [transform]
          rw [ap_disallow_idem, transformList_idem dis iscs]
        | some s =>
          simp only [transform]
          rw [ap_disallow_idem, transform_idem dis s, transformList_idem dis iscs]
    | some l =>
      cases its with
      | none =>
        simp only [transform]
        rw [ap_disallow_idem, transformProps_idem dis l]
      | some p =>
        rcases p with ⟨isc, iscs⟩
        cases isc with
        | none =>
          simp only [transform]
          rw [ap_disallow_idem, transformProps_idem dis l, transformList_idem dis iscs]
        | some s =>
          simp only [transform]
          rw [ap_disallow_idem, transformProps_idem dis l, transform_idem dis s,
            transformList_idem dis iscs]

theorem transformClosed_idem (dis : Bool) : (s : Schema) →
    transformClosed dis (transformClosed dis s) = transformClosed dis s
  | .mk ap props its exts => by
    cases props with
    | none =>
      cases its with
      | none => rfl
      | some p =>
        rcases p with ⟨isc, iscs⟩
        cases isc with
        | none =>
          simp only [transformClosed]
          rw [transformList_idem dis iscs]
        | some s =>
          simp only [transformClosed]
          rw [transform_idem dis s, transformList_idem dis iscs]
    | some l =>
      cases its with
      | none =>
        simp only [transformClosed]
        rw [transformProps_idem dis l]
      | some p =>
        rcases p with ⟨isc, iscs⟩
        cases isc with
        | none =>
          simp only [transformClosed]
          rw [transformProps_idem dis l, transformList_idem dis iscs]
        | some s =>
          simp only [transformClosed]
          rw [transformProps_idem dis l, transform_idem dis s, transformList_idem dis iscs]

theorem transformProps_idem (dis : Bool) : (l : List (String × Schema)) →
    transformProps dis (transformProps dis l) = transformProps dis l
  | [] => rfl
  | (k, p) :: rest => by
    rw [transformProps_cons]
    cases hq : shouldDisallowAP dis p.additionalProperties with
    | false =>
      rw [if_neg Bool.false_ne_true, transformProps_cons, hq, if_neg Bool.false_ne_true,
        transformProps_idem dis rest]
    | true =>
      rw [if_pos rfl, transformProps_cons]
      have hap : (transformClosed dis p).additionalProperties = some (false, none) := by
        cases p
        rfl
      rw [hap]
      cases dis with
      | false =>
        rw [show shouldDisallowAP false (some (false, none)) = false from rfl,
          if_neg Bool.false_ne_true, transformProps_idem false rest]
      | true =>
        rw [show shouldDisallowAP true (some (false, none)) = true from rfl, if_pos rfl,
          transformClosed_idem true p, transformProps_idem true rest]

theorem transformList_idem (dis : Bool) : (l : List Schema) →
    transformList dis (transformList dis l) = transformList dis l
  | [] => rfl
  | s :: rest => by
    simp only [transformList]
    rw [transform_idem dis s, transformList_idem dis rest]

end

theorem ap_variant_a_some (ap : Option (Bool × Option Schema)) :
    (if shouldDisallowAP false ap then some (false, none) else ap).isSome = true := by
  cases ap <;> rfl

theorem shouldDisallowAP_true (ap : Option (Bool × Option Schema)) :
    shouldDisallowAP true ap = true := by
  cases ap <;> rfl

theorem ap_variant_b_closed (ap : Option (Bool × Option Schema)) :
    (if shouldDisallowAP true ap then some (false, none) else ap) = some (false, none) := by
  cases ap <;> rfl

theorem transformProps_all_declared : (l : List (String × Schema)) →
    ((transformProps false l).all (fun kp => kp.2.additionalProperties.isSome)) = true
  | [] => rfl
  | (k, p) :: rest => by
    rw [transformProps_cons]
    cases hq : shouldDisallowAP false p.additionalProperties with
    | false =>
      rw [if_neg Bool.false_ne_true]
      have hp : p.additionalProperties.isSome = true := by
        rcases hap : p.additionalProperties with _ | x
        · rw [hap] at hq
          simp [shouldDisallowAP] at hq
        · rfl
      simp only [List.all_cons, hp, Bool.true_and]
      exact transformProps_all_declared rest
    | true =>
      rw [if_pos rfl]
      have hap : (transformClosed false p).additionalProperties = some (false, none) := by
        cases p
        rfl
      simp only [List.all_cons, hap, Option.isSome_some, Bool.true_and]
      exact transformProps_all_declared rest

mutual

theorem declared_transform : (s : Schema) → declaredAlongWalk (transform false s) = true
  | .mk ap props its exts => by
    cases props with
    | none =>
      cases its with
      | none =>
        simp [transform, declaredAlongWalk, ap_variant_a_some]
      | some p =>
        rcases p with ⟨isc, iscs⟩
        cases isc with
        | none =>
          simp [transform, declaredAlongWalk, ap_variant_a_some, declaredList_transform iscs]
        | some s =>
          simp [transform, declaredAlongWalk, ap_variant_a_some, declared_transform s,
            declaredList_transform iscs]
    | some l =>
      cases its with
      | none =>
        simp [transform, declaredAlongWalk, ap_variant_a_some, transformProps_all_declared l]
      | some p =>
        rcases p with ⟨isc, iscs⟩
        cases isc with
        | none =>
          simp [transform, declaredAlongWalk, ap_variant_a_some,
            transformProps_all_declared l, declaredList_transform iscs]
        | some s =>
          simp [transform, declaredAlongWalk, ap_variant_a_some,
            transformProps_all_declared l, declared_transform s, declaredList_transform iscs]

theorem declaredList_transform : (l : List Schema) →
    declaredWalkList (transformList false l) = true
  | [] => rfl
  | s :: rest => by
    simp [transformList, declaredWalkList, declared_transform s, declaredList_transform rest]

end

mutual

theorem closed_transform : (s : Schema) → allReachableClosedAP (transform true s) = true
  | .mk ap props its exts => by
    cases props with
    | none =>
      cases its with
      | none =>
        simp [transform, allReachableClosedAP, ap_variant_b_closed]
      | some p =>
        rcases p with ⟨isc, iscs⟩
        cases isc with
        | none =>
          simp [transform, allReachableClosedAP, ap_variant_b_closed,
            closed_transformList iscs]
        | some s =>
          simp [transform, allReachableClosedAP, ap_variant_b_closed, closed_transform s,
            closed_transformList iscs]
    | some l =>
      cases its with
      | none =>
        simp [transform, allReachableClosedAP, ap_variant_b_closed, closed_transformProps l]
      | some p =>
        rcases p with ⟨isc, iscs⟩
        cases isc with
        | none =>
          simp [transform, allReachableClosedAP, ap_variant_b_closed, closed_transformProps l,
            closed_transformList iscs]
        | some s =>
          simp [transform, allReachableClosedAP, ap_variant_b_closed, closed_transformProps l,
            closed_transform s, closed_transformList iscs]

theorem closed_transformClosed : (s : Schema) → allReachableClosedAP (transformClosed true s) = true
  | .mk ap props its exts => by
    cases props with
    | none =>
      cases its with
      | none =>
        simp [transformClosed, allReachableClosedAP]
      | some p =>
        rcases p with ⟨isc, iscs⟩
        cases isc with
        | none =>
          simp [transformClosed, allReachableClosedAP, closed_transformList iscs]
        | some s =>
          simp [transformClosed, allReachableClosedAP, closed_transform s,
            closed_transformList iscs]
    | some l =>
      cases its with
      | none =>
        simp [transformClosed, allReachableClosedAP, closed_transformProps l]
      | some p =>
        rcases p with ⟨isc, iscs⟩
        cases isc with
        | none =>
          simp [transformClosed, allReachableClosedAP, closed_transformProps l,
            closed_transformList iscs]
        | some s =>
          simp [transformClosed, allReachableClosedAP, closed_transformProps l,
            closed_transform s, closed_transformList iscs]

theorem closed_transformProps : (l : List (String × Schema)) →
    allClosedInProps (transformProps true l) = true
  | [] => rfl
  | (k, p) :: rest => by
    rw [transformProps_cons, shouldDisallowAP_true, if_pos rfl]
    simp [allClosedInProps, closed_transformClosed p, closed_transformProps rest]

theorem closed_transformList : (l : List Schema) →
    allClosedInList (transformList true l) = true
  | [] => rfl
  | s :: rest => by
    simp [transformList, allClosedInList, closed_transform s, closed_transformList rest]

end

/-- Counterexample for C5 as stated: variant (a) leaves a reachable
object node with a completely unset additional-properties flag open.
The node `b` sits below property `a`, which carries an explicit
declaration, so the walk never descends into it. -/
theorem C5_variant_a_counterexample :
    existsReachableUnsetAP (transform false (Schema.mk none
      (some [("a", Schema.mk (some (true, none))
        (some [("b", Schema.mk none none none [])]) none [])]) none [])) = true := rfl

/-- Claim C5 (amended): variant (a) guarantees that the transformed
root, every node reachable from it along array-item-schema edges, and
every immediate property of such nodes carry an additional-properties
declaration — nodes beneath an explicitly-flagged property are left
untouched; variant (b) force-closes every node reachable along property
and array-item edges. -/
theorem C5_transformer_closure :
    (∀ s : Schema, declaredAlongWalk (transform false s) = true) ∧
    (∀ s : Schema, allReachableClosedAP (transform true s) = true) :=
  ⟨declared_transform, closed_transform⟩

theorem cellGet_set (heap : List Schema) (a : Nat) (x : Schema) (h : a < heap.length) :
    cellGet (heap.set a x) a = x := by
  unfold cellGet
  rw [List.getElem?_set_eq_of_lt x h]
  rfl

/-- Claim C4 (amended): `AdditionalPropertiesTransformer.Transform`
mutates the schema in place through the caller's pointer: after a
pipeline call the registry-stored cell holds the value-level transform of
its previous contents (not, in general, its pre-transform value), the
returned pointer is the argument itself, and — because the transform is
idempotent — running the pipeline again over the already-transformed cell
leaves the heap unchanged, making re-use across calls stable. -/
theorem C4_transform_in_place (dis : Bool) (heap : List Schema) (a : Nat) (h : a < heap.length) :
    (transformInPlace dis heap a).2 = a ∧
    cellGet (transformInPlace dis heap a).1 a = transform dis (cellGet heap a) ∧
    transformInPlace dis (transformInPlace dis heap a).1 a = transformInPlace dis heap a := by
  have hc : cellGet (heap.set a (transform dis (cellGet heap a))) a =
      transform dis (cellGet heap a) := cellGet_set heap a _ h
  refine ⟨rfl, hc, ?_⟩
  unfold transformInPlace
  rw [hc, transform_idem dis (cellGet heap a), List.set_set]

/-- Counterexample for C4 as stated: running the pipeline with the
variant-(a) transformer over a registry cell holding the zero schema
leaves the cell holding the closed schema — not a value structurally
equal to its pre-transform contents. -/
theorem C4_registry_mutation_counterexample :
    cellGet (applyTransformersInPlace [false] [Schema.empty] 0).1 0 ≠ Schema.empty := by
  have hval : cellGet (applyTransformersInPlace [false] [Schema.empty] 0).1 0 =
      Schema.mk (some (false, none)) none none [] := rfl
  rw [hval]
  intro h
  exact Option.noConfusion (congrArg Schema.additionalProperties h)

/-- Witness for the amended C4 at a one-cell heap holding the zero
schema. -/
theorem C4_transform_in_place_witness :
    0 < [Schema.empty].length ∧
    ((transformInPlace false [Schema.empty] 0).2 = 0 ∧
     cellGet (transformInPlace false [Schema.empty] 0).1 0 =
       transform false (cellGet [Schema.empty] 0) ∧
     transformInPlace false (transformInPlace false [Schema.empty] 0).1 0 =
       transformInPlace false [Schema.empty] 0) :=
  ⟨by decide, C4_transform_in_place false [Schema.empty] 0 (by decide)⟩

/-! ## Claim C3 — round-trip idempotence -/

/-- Counterexample for C3 as stated: a registry state (a registered
pre-validator that accepts the original document but rejects its
re-encoded form) on which a first `ValidateWithIndex` run succeeds and
produces output bytes `reencoded`, while re-running on that output with
the same index and options fails instead of succeeding with the same
bytes. -/
theorem C3_round_trip_counterexample :
    Validator.ValidateWithIndex extStable validatorWithPreValidator
      ⟨"TestKind", "deckhouse.io/v1"⟩ "orig" optionsNone =
      (none, ⟨"TestKind", "deckhouse.io/v1"⟩, "reencoded") ∧
    Validator.ValidateWithIndex extStable validatorWithPreValidator
      ⟨"TestKind", "deckhouse.io/v1"⟩ "reencoded" optionsNone =
      (some (.preValidator "pre-validator rejected document"),
       ⟨"TestKind", "deckhouse.io/v1"⟩, "reencoded") := ⟨rfl, rfl⟩

/-- Claim C3 (amended): re-running `ValidateWithIndex` on the output `D`
of a prior successful run succeeds and leaves the buffer equal to `D`
provided every external capability and hook is stable on `D`: the
(already fallback-rewritten) index resolves directly to a schema, any
registered pre-validator passes that schema through on `D`, `D` decodes,
the structural validator accepts the decoded value, the extension
validators accept `D`, and re-encoding the re-defaulted value reproduces
`D` byte-identically.  The repository's wiring adds no further
obstruction: under these hypotheses no defaults are re-applied and the
buffer is byte-stable. -/
theorem C3_round_trip_stable {V R : Type} (ext : Externals V R) (v : Validator)
    (index i1 : SchemaIndex) (doc D : String) (opts : ValidateOptions)
    (sc : Schema) (blank2 : V)
    (h0 : Validator.ValidateWithIndex ext v index doc opts = (none, i1, D))
    (h1 : i1.IsValid = true)
    (h2 : v.getSchemaWithFallback i1 = (some sc, i1))
    (h3 : (match mapGet v.preValidators i1 with
           | some pv => pv D (some sc)
           | none => Except.ok (some sc)) = Except.ok (some sc))
    (h4 : (if opts.strictUnmarshal then ext.yamlUnmarshalStrict D
           else ext.yamlUnmarshal D) = .ok blank2)
    (h5 : ext.resultIsValid (ext.schemaValidate (v.addTransformersForSchema i1 sc) blank2) = true)
    (h6 : Validator.runExtensionsValidators ext.decode v.extensionsValidators D
            (v.addTransformersForSchema i1 sc) = none)
    (h7 : ext.jsonMarshal (ext.resultData (ext.applyDefaults
            (ext.schemaValidate (v.addTransformersForSchema i1 sc) blank2))) = D) :
    Validator.ValidateWithIndex ext v i1 D opts = (none, i1, D) := by
  have hoav : Validator.openAPIValidate ext v D (v.addTransformersForSchema i1 sc) opts =
      ((true, none), D) := by
    simp only [Validator.openAPIValidate, h4]
    simp only [h5, Bool.not_true, Bool.false_eq_true, if_false, h6, h7]
  simp only [Validator.ValidateWithIndex, h1, Bool.not_true, Bool.false_eq_true, if_false, h2]
  rw [h3]
  dsimp only
  rw [hoav]
  rfl

/-- Witness for the amended C3: with the stable externals every
hypothesis holds, the first run produces `reencoded`, and the second run
reproduces it byte-identically. -/
theorem C3_round_trip_stable_witness :
    Validator.ValidateWithIndex extStable validatorPlain
      ⟨"TestKind", "deckhouse.io/v1"⟩ "orig" optionsNone =
      (none, ⟨"TestKind", "deckhouse.io/v1"⟩, "reencoded") ∧
    Validator.ValidateWithIndex extStable validatorPlain
      ⟨"TestKind", "deckhouse.io/v1"⟩ "reencoded" optionsNone =
      (none, ⟨"TestKind", "deckhouse.io/v1"⟩, "reencoded") :=
  ⟨rfl,
   C3_round_trip_stable extStable validatorPlain ⟨"TestKind", "deckhouse.io/v1"⟩
     ⟨"TestKind", "deckhouse.io/v1"⟩ "orig" "reencoded" optionsNone Schema.empty 1
     rfl rfl rfl rfl rfl rfl rfl rfl⟩

end DhctlValidation
